import Mathlib

set_option maxRecDepth 4000

/-!
Shallow embedding of the gomcc launcher core: the configuration data model
(config.go, reproduced verbatim in PROJECT.md), the executor (executor.go) and
the per-app batch launch loop of main.go.  OS process execution is modelled as
an explicit environment of boolean capabilities (`Env`): `runCheck` is the
synchronous `cmd.Run()` used for checks (`true` means the process started and
exited with status 0, i.e. `err == nil`), `startApp` is the detached
`cmd.Start()` used for the final launch (`true` means the start succeeded).
The executor's `checkCache` map is an association list threaded through the
operations, and every spawned process is recorded in an event list so that
"no process is spawned" is a provable statement.  Go's `map` iteration order
over dependencies is unspecified but fixed within a run; it is modelled as the
order of an association list.
-/

inductive AppType where
  | check
  | executable
deriving DecidableEq

structure DependencyAction where
  onSuccess : String
  onFailure : String
deriving DecidableEq

structure App where
  name : String
  type : AppType
  command : String
  args : List String
  tags : List String
  dependencies : List (String × DependencyAction)
deriving DecidableEq

structure Config where
  apps : List App
deriving DecidableEq

/-- Linear scan behind `Config.GetApp` (config.go): first app with the name. -/
def getAppIn : List App → String → Option App
  | [], _ => none
  | a :: rest, n => if a.name = n then some a else getAppIn rest n

def Config.GetApp (c : Config) (n : String) : Option App :=
  getAppIn c.apps n

/-- The executor's `checkCache map[string]bool`, as an association list. -/
abbrev Cache := List (String × Bool)

/-- A spawned process: command and argument list. -/
abbrev Spawn := String × List String

def cacheLookup : Cache → String → Option Bool
  | [], _ => none
  | (k, v) :: rest, n => if k = n then some v else cacheLookup rest n

def cacheInsert (c : Cache) (n : String) (b : Bool) : Cache :=
  (n, b) :: c

/-- The process-execution capabilities the executor calls into. -/
structure Env where
  runCheck : String → List String → Bool
  startApp : String → List String → Bool

structure CheckResult where
  success : Bool
  err : Option String
  cache : Cache
  spawned : List Spawn
deriving DecidableEq

/-- ExecuteCheck (executor.go lines 46-84): type guard, cache consultation,
dry-run shortcut, otherwise synchronous run with the result cached. -/
def ExecuteCheck (env : Env) (dryRun : Bool) (cache : Cache) (app : App) : CheckResult :=
  if app.type ≠ AppType.check then
    ⟨false, some ("app '" ++ app.name ++ "' is not a check type"), cache, []⟩
  else
    match cacheLookup cache app.name with
    | some result => ⟨result, none, cache, []⟩
    | none =>
      if dryRun then
        ⟨true, none, cacheInsert cache app.name true, []⟩
      else
        let success := env.runCheck app.command app.args
        ⟨success, none, cacheInsert cache app.name success, [(app.command, app.args)]⟩

structure RunResult where
  err : Option String
  cache : Cache
  spawned : List Spawn
deriving DecidableEq

/-- PrintCheckResult (executor.go lines 87-113): runs the check directly,
without consulting the dry-run flag or the cache. -/
def PrintCheckResult (env : Env) (_dryRun : Bool) (cache : Cache) (app : App) : RunResult :=
  if app.type ≠ AppType.check then
    ⟨some ("app '" ++ app.name ++ "' is not a check type"), cache, []⟩
  else
    if env.runCheck app.command app.args then
      ⟨none, cache, [(app.command, app.args)]⟩
    else
      ⟨some ("check '" ++ app.name ++ "' failed"), cache, [(app.command, app.args)]⟩

/-- Accumulator-based splitter behind `fields`: `cur` holds the reversed
characters of the token being read. -/
def fieldsAux (cur : List Char) : List Char → List String
  | [] => if cur = [] then [] else [⟨cur.reverse⟩]
  | c :: cs =>
    if c.isWhitespace then
      if cur = [] then fieldsAux [] cs
      else ⟨cur.reverse⟩ :: fieldsAux [] cs
    else fieldsAux (c :: cur) cs

/-- strings.Fields: split on whitespace runs, dropping empty tokens. -/
def fields (s : String) : List String :=
  fieldsAux [] s.data

/-- parseCommand (executor.go lines 160-166). -/
def parseCommand (cmdStr : String) : Except String (String × List String) :=
  match fields cmdStr with
  | [] => Except.error "empty command string"
  | c :: rest => Except.ok (c, rest)

deriving instance DecidableEq for Except

structure ResolveResult where
  result : Except String (String × List String)
  cache : Cache
  spawned : List Spawn
deriving DecidableEq

/-- Loop body of resolveCommand (executor.go lines 130-152). -/
def resolveCommandAux (cfg : Config) (env : Env) (dryRun : Bool)
    (defCmd : String) (defArgs : List String) :
    Cache → List (String × DependencyAction) → ResolveResult
  | cache, [] => ⟨Except.ok (defCmd, defArgs), cache, []⟩
  | cache, (depName, action) :: rest =>
    match Config.GetApp cfg depName with
    | none => ⟨Except.error ("dependency '" ++ depName ++ "' not found"), cache, []⟩
    | some depApp =>
      if depApp.type ≠ AppType.check then
        ⟨Except.error ("dependency '" ++ depName ++ "' is not a check type"), cache, []⟩
      else
        let r := ExecuteCheck env dryRun cache depApp
        if r.success && action.onSuccess != "" then
          ⟨parseCommand action.onSuccess, r.cache, r.spawned⟩
        else if !r.success && action.onFailure != "" then
          ⟨parseCommand action.onFailure, r.cache, r.spawned⟩
        else
          let rr := resolveCommandAux cfg env dryRun defCmd defArgs r.cache rest
          ⟨rr.result, rr.cache, r.spawned ++ rr.spawned⟩

/-- resolveCommand (executor.go lines 121-157). -/
def resolveCommand (cfg : Config) (env : Env) (dryRun : Bool) (cache : Cache) (app : App) :
    ResolveResult :=
  if app.dependencies.isEmpty then ⟨Except.ok (app.command, app.args), cache, []⟩
  else resolveCommandAux cfg env dryRun app.command app.args cache app.dependencies

structure CanResult where
  allowed : Bool
  err : Option String
  cache : Cache
  spawned : List Spawn
deriving DecidableEq

/-- Loop body of CanExecuteApp (executor.go lines 222-242). -/
def canExecuteLoop (cfg : Config) (env : Env) (dryRun : Bool) :
    Cache → Bool → List (String × DependencyAction) → CanResult
  | cache, acc, [] => ⟨acc, none, cache, []⟩
  | cache, acc, (depName, action) :: rest =>
    match Config.GetApp cfg depName with
    | none => ⟨false, some ("dependency '" ++ depName ++ "' not found"), cache, []⟩
    | some depApp =>
      if depApp.type ≠ AppType.check then
        ⟨false, some ("dependency '" ++ depName ++ "' is not a check type"), cache, []⟩
      else
        let r := ExecuteCheck env dryRun cache depApp
        let sat := (r.success && action.onSuccess != "") || (!r.success && action.onFailure != "")
        let rr := canExecuteLoop cfg env dryRun r.cache (acc || sat) rest
        ⟨rr.allowed, rr.err, rr.cache, r.spawned ++ rr.spawned⟩

/-- CanExecuteApp (executor.go lines 212-249). -/
def CanExecuteApp (cfg : Config) (env : Env) (dryRun : Bool) (cache : Cache) (app : App) :
    CanResult :=
  if app.dependencies.isEmpty then ⟨true, none, cache, []⟩
  else canExecuteLoop cfg env dryRun cache false app.dependencies

/-- ExecuteApp (executor.go lines 169-209): resolve, then dry-run shortcut or
detached start. -/
def ExecuteApp (cfg : Config) (env : Env) (dryRun : Bool) (cache : Cache) (app : App) :
    RunResult :=
  if app.type ≠ AppType.executable then
    ⟨some ("app '" ++ app.name ++ "' is not an executable type"), cache, []⟩
  else
    let r := resolveCommand cfg env dryRun cache app
    match r.result with
    | Except.error e =>
      ⟨some ("failed to resolve command for app '" ++ app.name ++ "': " ++ e), r.cache, r.spawned⟩
    | Except.ok (cmd, args) =>
      if dryRun then
        ⟨none, r.cache, r.spawned⟩
      else if env.startApp cmd args then
        ⟨none, r.cache, r.spawned ++ [(cmd, args)]⟩
      else
        ⟨some ("failed to start app '" ++ app.name ++ "'"), r.cache, r.spawned⟩

inductive Outcome where
  | success
  | failed
  | skipped
deriving DecidableEq

/-- One iteration of the batch loop in main.go (lines 163-193): skip checks,
gate, then launch, classifying the app into exactly one outcome. -/
def processApp (cfg : Config) (env : Env) (dryRun : Bool) (cache : Cache) (app : App) :
    Outcome × Cache × List Spawn :=
  if app.type = AppType.check then
    (Outcome.skipped, cache, [])
  else
    let c := CanExecuteApp cfg env dryRun cache app
    match c.err with
    | some _ => (Outcome.failed, c.cache, c.spawned)
    | none =>
      if !c.allowed then
        (Outcome.skipped, c.cache, c.spawned)
      else
        let r := ExecuteApp cfg env dryRun c.cache app
        match r.err with
        | some _ => (Outcome.failed, r.cache, c.spawned ++ r.spawned)
        | none => (Outcome.success, r.cache, c.spawned ++ r.spawned)

/-- Counter update of the batch loop: one outcome bumps one counter. -/
def bump : Outcome → Nat × Nat × Nat → Nat × Nat × Nat
  | Outcome.success, (s, f, k) => (s + 1, f, k)
  | Outcome.failed, (s, f, k) => (s, f + 1, k)
  | Outcome.skipped, (s, f, k) => (s, f, k + 1)

/-- The whole batch loop of main.go: counts (success, failure, skipped), the
final cache, and every spawned process. -/
def runBatch (cfg : Config) (env : Env) (dryRun : Bool) :
    Cache → List App → (Nat × Nat × Nat) × Cache × List Spawn
  | cache, [] => ((0, 0, 0), cache, [])
  | cache, app :: rest =>
    let p := processApp cfg env dryRun cache app
    let r := runBatch cfg env dryRun p.2.1 rest
    (bump p.1 r.1, r.2.1, p.2.2 ++ r.2.2)

/-- The outcome of a named check as determined by the cache, the dry-run flag
and the execution capability: the value ExecuteCheck returns and records. -/
def checkOutcome (env : Env) (dryRun : Bool) (cache : Cache) (a : App) : Bool :=
  match cacheLookup cache a.name with
  | some b => b
  | none => if dryRun then true else env.runCheck a.command a.args

/-- The per-dependency satisfaction predicate shared by the Resolver and the
Gate: the check succeeded and onSuccess is non-empty, or it failed and
onFailure is non-empty. -/
def depMatches (cfg : Config) (env : Env) (dryRun : Bool) (cache : Cache)
    (d : String × DependencyAction) : Bool :=
  match Config.GetApp cfg d.1 with
  | some a =>
    if checkOutcome env dryRun cache a then d.2.onSuccess != "" else d.2.onFailure != ""
  | none => false

/-- The branch string a matching dependency selects. -/
def specPick (cfg : Config) (env : Env) (dryRun : Bool) (cache : Cache)
    (d : String × DependencyAction) : String :=
  match Config.GetApp cfg d.1 with
  | some a => if checkOutcome env dryRun cache a then d.2.onSuccess else d.2.onFailure
  | none => ""

/-- Every dependency name resolves to an app of check type. -/
def depsWF (cfg : Config) (deps : List (String × DependencyAction)) : Bool :=
  deps.all fun d =>
    match Config.GetApp cfg d.1 with
    | some a => a.type == AppType.check
    | none => false

/-! Concrete configuration used by the witnesses and the counterexample:
two checks (one whose command the environment accepts, one it rejects) and
executables exercising each dependency shape. -/

/-- Environment where exactly the command "ok" succeeds as a check and every
detached start succeeds. -/
def envA : Env := ⟨fun c _ => c == "ok", fun _ _ => true⟩

/-- Environment where every check fails (used to reconfigure between calls). -/
def envFail : Env := ⟨fun _ _ => false, fun _ _ => true⟩

def chkOK : App := ⟨"cOK", AppType.check, "ok", [], [], []⟩

def chkBad : App := ⟨"cBad", AppType.check, "bad", [], [], []⟩

/-- Executable whose first dependency fails with an onFailure branch. -/
def appD : App := ⟨"a", AppType.executable, "defcmd", ["x"], [],
  [("cBad", ⟨"", "fb run"⟩), ("cOK", ⟨"ok run", ""⟩)]⟩

/-- Executable whose single dependency fails but only onSuccess is set. -/
def appNM : App := ⟨"nm", AppType.executable, "defnm", [], [], [("cBad", ⟨"sOnly", ""⟩)]⟩

/-- Executable whose matching branch is a whitespace-only command string. -/
def appEC : App := ⟨"ec", AppType.executable, "defec", [], [], [("cOK", ⟨"  ", ""⟩)]⟩

/-- Executable depending on "a", which exists but is not a check. -/
def appW : App := ⟨"w", AppType.executable, "cw", [], [], [("a", ⟨"x", "y"⟩)]⟩

/-- Executable with no dependencies. -/
def appB : App := ⟨"b", AppType.executable, "runb", [], [], []⟩

def cfgA : Config := ⟨[chkOK, chkBad, appD, appB]⟩

/-! Helper lemmas. -/

theorem getAppIn_name (l : List App) (n : String) (a : App) (h : getAppIn l n = some a) :
    a.name = n := by
  induction l with
  | nil => simp [getAppIn] at h
  | cons x rest ih =>
    by_cases hx : x.name = n
    · rw [getAppIn, if_pos hx] at h
      injection h with h'
      rw [← h']
      exact hx
    · rw [getAppIn, if_neg hx] at h
      exact ih h

theorem GetApp_name (cfg : Config) (n : String) (a : App) (h : Config.GetApp cfg n = some a) :
    a.name = n :=
  getAppIn_name cfg.apps n a h

theorem cacheLookup_insert (cache : Cache) (n : String) (b : Bool) (m : String) :
    cacheLookup (cacheInsert cache n b) m = if m = n then some b else cacheLookup cache m := by
  by_cases hm : m = n
  · subst hm
    simp [cacheInsert, cacheLookup]
  · have hnm : ¬(n = m) := fun h => hm h.symm
    simp [cacheInsert, cacheLookup, hm, hnm]

/-- Core characterization of ExecuteCheck on a check app: it returns
`checkOutcome`, a nil error, and a cache holding exactly that outcome under
the app's name and unchanged elsewhere. -/
theorem executeCheck_char (env : Env) (dr : Bool) (cache : Cache) (a : App)
    (h : a.type = AppType.check) :
    (ExecuteCheck env dr cache a).success = checkOutcome env dr cache a ∧
    (ExecuteCheck env dr cache a).err = none ∧
    (∀ m, cacheLookup (ExecuteCheck env dr cache a).cache m =
      if m = a.name then some (checkOutcome env dr cache a) else cacheLookup cache m) := by
  unfold ExecuteCheck checkOutcome
  rw [if_neg (by simp [h])]
  cases hc : cacheLookup cache a.name with
  | some b =>
    refine ⟨rfl, rfl, fun m => ?_⟩
    by_cases hm : m = a.name
    · subst hm
      rw [if_pos rfl, hc]
    · rw [if_neg hm]
  | none =>
    cases dr with
    | true =>
      refine ⟨rfl, rfl, fun m => ?_⟩
      simp [cacheLookup_insert]
    | false =>
      refine ⟨rfl, rfl, fun m => ?_⟩
      simp [cacheLookup_insert]

/-- ExecuteCheck never removes or changes an existing cache entry. -/
theorem executeCheck_cache_mono (env : Env) (dr : Bool) (cache : Cache) (a : App)
    (m : String) (v : Bool) (hm : cacheLookup cache m = some v) :
    cacheLookup (ExecuteCheck env dr cache a).cache m = some v := by
  by_cases ht : a.type = AppType.check
  · cases hc : cacheLookup cache a.name with
    | some b => simp [ExecuteCheck, ht, hc, hm]
    | none =>
      have hma : ¬(m = a.name) := fun h => by rw [h, hc] at hm; exact Option.noConfusion hm
      cases dr <;> simp [ExecuteCheck, ht, hc, cacheLookup_insert, hma, hm]
  · simp [ExecuteCheck, ht, hm]

/-- Evaluating one (well-referenced) check does not change the outcome of any
check reachable through the configuration. -/
theorem checkOutcome_stable (cfg : Config) (env : Env) (dr : Bool) (cache : Cache)
    (n : String) (a : App) (ha : Config.GetApp cfg n = some a) (ht : a.type = AppType.check)
    (m : String) (b : App) (hb : Config.GetApp cfg m = some b) :
    checkOutcome env dr (ExecuteCheck env dr cache a).cache b = checkOutcome env dr cache b := by
  have hlook := (executeCheck_char env dr cache a ht).2.2
  by_cases hbn : b.name = a.name
  · have hbm : b.name = m := GetApp_name cfg m b hb
    have han : a.name = n := GetApp_name cfg n a ha
    have hmn : m = n := by rw [← hbm, hbn, han]
    subst hmn
    rw [ha] at hb
    injection hb with hb'
    subst hb'
    have hred : checkOutcome env dr (ExecuteCheck env dr cache a).cache a =
        match cacheLookup (ExecuteCheck env dr cache a).cache a.name with
        | some v => v
        | none => if dr then true else env.runCheck a.command a.args := rfl
    rw [hred, hlook a.name, if_pos rfl]
  · unfold checkOutcome
    rw [hlook b.name, if_neg hbn]

/-- Stability of the satisfaction predicate under evaluating one check. -/
theorem depMatches_stable (cfg : Config) (env : Env) (dr : Bool) (cache : Cache)
    (n : String) (a : App) (ha : Config.GetApp cfg n = some a) (ht : a.type = AppType.check) :
    depMatches cfg env dr (ExecuteCheck env dr cache a).cache = depMatches cfg env dr cache := by
  funext d
  unfold depMatches
  cases hg : Config.GetApp cfg d.1 with
  | none => rfl
  | some b =>
    simp only [checkOutcome_stable cfg env dr cache n a ha ht d.1 b hg]

/-- Stability of the selected branch under evaluating one check. -/
theorem specPick_stable (cfg : Config) (env : Env) (dr : Bool) (cache : Cache)
    (n : String) (a : App) (ha : Config.GetApp cfg n = some a) (ht : a.type = AppType.check) :
    specPick cfg env dr (ExecuteCheck env dr cache a).cache = specPick cfg env dr cache := by
  funext d
  unfold specPick
  cases hg : Config.GetApp cfg d.1 with
  | none => rfl
  | some b =>
    simp only [checkOutcome_stable cfg env dr cache n a ha ht d.1 b hg]

theorem depsWF_cons (cfg : Config) (hd : String × DependencyAction)
    (rest : List (String × DependencyAction)) (h : depsWF cfg (hd :: rest) = true) :
    (∃ a, Config.GetApp cfg hd.1 = some a ∧ a.type = AppType.check) ∧
      depsWF cfg rest = true := by
  rw [depsWF, List.all_cons, Bool.and_eq_true] at h
  refine ⟨?_, h.2⟩
  cases hg : Config.GetApp cfg hd.1 with
  | none => rw [hg] at h; exact absurd h.1 (by simp)
  | some a =>
    rw [hg] at h
    exact ⟨a, rfl, by simpa using h.1⟩

/-- First-match characterization of the resolver loop: under well-formed
dependency references, the result is the parsed branch of the first
dependency satisfied by the (initial-cache) check outcomes, or the default
command when none matches. -/
theorem resolveAux_char (cfg : Config) (env : Env) (dr : Bool) (dc : String) (da : List String) :
    ∀ (deps : List (String × DependencyAction)) (cache : Cache),
      depsWF cfg deps = true →
      (resolveCommandAux cfg env dr dc da cache deps).result =
        match deps.find? (depMatches cfg env dr cache) with
        | some d => parseCommand (specPick cfg env dr cache d)
        | none => Except.ok (dc, da) := by
  intro deps
  induction deps with
  | nil => intro cache _; rfl
  | cons hd rest ih =>
    intro cache hwf
    obtain ⟨n, act⟩ := hd
    obtain ⟨⟨depApp, hg, htype⟩, hwfr⟩ := depsWF_cons cfg (n, act) rest hwf
    have hchar := executeCheck_char env dr cache depApp htype
    have hs := hchar.1
    have hstable := depMatches_stable cfg env dr cache n depApp hg htype
    have hpstable := specPick_stable cfg env dr cache n depApp hg htype
    have hdm : depMatches cfg env dr cache (n, act) =
        (if checkOutcome env dr cache depApp then act.onSuccess != ""
         else act.onFailure != "") := by
      simp only [depMatches, hg]
    simp only [resolveCommandAux, hg]
    rw [if_neg (by simp [htype])]
    rw [List.find?_cons]
    cases ho : checkOutcome env dr cache depApp with
    | true =>
      rw [ho] at hs hdm
      rw [if_pos rfl] at hdm
      cases hS : (act.onSuccess != "") with
      | true =>
        rw [hS] at hdm
        rw [hdm]
        simp [hs, hS, specPick, hg, ho]
      | false =>
        rw [hS] at hdm
        rw [hdm, ih _ hwfr, hstable, hpstable]
        simp [hs, hS]
    | false =>
      rw [ho] at hs hdm
      rw [if_neg (by simp)] at hdm
      cases hF : (act.onFailure != "") with
      | true =>
        rw [hF] at hdm
        rw [hdm]
        simp [hs, hF, specPick, hg, ho]
      | false =>
        rw [hF] at hdm
        rw [hdm, ih _ hwfr, hstable, hpstable]
        simp [hs, hF]

/-- Characterization of resolveCommand including the empty-dependency case. -/
theorem resolve_char (cfg : Config) (env : Env) (dr : Bool) (cache : Cache) (app : App)
    (hwf : depsWF cfg app.dependencies = true) :
    (resolveCommand cfg env dr cache app).result =
      match app.dependencies.find? (depMatches cfg env dr cache) with
      | some d => parseCommand (specPick cfg env dr cache d)
      | none => Except.ok (app.command, app.args) := by
  unfold resolveCommand
  cases h : app.dependencies with
  | nil => simp
  | cons hd tl =>
    rw [h] at hwf
    simp only [List.isEmpty_cons, Bool.false_eq_true, if_false]
    exact resolveAux_char cfg env dr app.command app.args (hd :: tl) cache hwf

/-- Characterization of the gate loop: no error under well-formed references,
the allow bit is the disjunction of the satisfaction predicate over all
dependencies, every dependency's outcome ends up recorded in the cache, and
existing cache entries survive. -/
theorem canLoop_char (cfg : Config) (env : Env) (dr : Bool) :
    ∀ (deps : List (String × DependencyAction)) (cache : Cache) (acc : Bool),
      depsWF cfg deps = true →
      (canExecuteLoop cfg env dr cache acc deps).err = none ∧
      (canExecuteLoop cfg env dr cache acc deps).allowed
        = (acc || deps.any (depMatches cfg env dr cache)) ∧
      (∀ d ∈ deps,
        (cacheLookup (canExecuteLoop cfg env dr cache acc deps).cache d.1).isSome = true) ∧
      (∀ m v, cacheLookup cache m = some v →
        cacheLookup (canExecuteLoop cfg env dr cache acc deps).cache m = some v) := by
  intro deps
  induction deps with
  | nil =>
    intro cache acc _
    exact ⟨rfl, by simp [canExecuteLoop], by simp, fun m v hm => hm⟩
  | cons hd rest ih =>
    intro cache acc hwf
    obtain ⟨n, act⟩ := hd
    obtain ⟨⟨depApp, hg, htype⟩, hwfr⟩ := depsWF_cons cfg (n, act) rest hwf
    have hchar := executeCheck_char env dr cache depApp htype
    have hstable := depMatches_stable cfg env dr cache n depApp hg htype
    have hname : depApp.name = n := GetApp_name cfg n depApp hg
    have hsat : (((ExecuteCheck env dr cache depApp).success && (act.onSuccess != ""))
        || ((!(ExecuteCheck env dr cache depApp).success) && (act.onFailure != "")))
        = depMatches cfg env dr cache (n, act) := by
      rw [hchar.1]
      simp only [depMatches, hg]
      cases ho : checkOutcome env dr cache depApp
      · rw [if_neg (by simp)]
        simp
      · rw [if_pos rfl]
        simp
    have hstep : canExecuteLoop cfg env dr cache acc ((n, act) :: rest) =
        ⟨(canExecuteLoop cfg env dr (ExecuteCheck env dr cache depApp).cache
            (acc || depMatches cfg env dr cache (n, act)) rest).allowed,
         (canExecuteLoop cfg env dr (ExecuteCheck env dr cache depApp).cache
            (acc || depMatches cfg env dr cache (n, act)) rest).err,
         (canExecuteLoop cfg env dr (ExecuteCheck env dr cache depApp).cache
            (acc || depMatches cfg env dr cache (n, act)) rest).cache,
         (ExecuteCheck env dr cache depApp).spawned ++
           (canExecuteLoop cfg env dr (ExecuteCheck env dr cache depApp).cache
            (acc || depMatches cfg env dr cache (n, act)) rest).spawned⟩ := by
      simp only [canExecuteLoop, hg]
      rw [if_neg (by simp [htype])]
      rw [hsat]
    obtain ⟨iherr, ihallowed, ihcov, ihmono⟩ :=
      ih (ExecuteCheck env dr cache depApp).cache
        (acc || depMatches cfg env dr cache (n, act)) hwfr
    rw [hstable] at ihallowed
    refine ⟨by rw [hstep]; exact iherr, ?_, ?_, ?_⟩
    · rw [hstep]
      show (canExecuteLoop cfg env dr (ExecuteCheck env dr cache depApp).cache
          (acc || depMatches cfg env dr cache (n, act)) rest).allowed = _
      rw [ihallowed, List.any_cons, Bool.or_assoc]
    · intro d hd'
      rw [hstep]
      rcases List.mem_cons.mp hd' with hdh | hdt
      · subst hdh
        have hl : cacheLookup (ExecuteCheck env dr cache depApp).cache n =
            some (checkOutcome env dr cache depApp) := by
          have := hchar.2.2 depApp.name
          rw [if_pos rfl] at this
          rw [← hname]
          exact this
        have := ihmono n (checkOutcome env dr cache depApp) hl
        show (cacheLookup (canExecuteLoop cfg env dr (ExecuteCheck env dr cache depApp).cache
            (acc || depMatches cfg env dr cache (n, act)) rest).cache n).isSome = true
        rw [this]
        rfl
      · exact ihcov d hdt
    · intro m v hm
      rw [hstep]
      exact ihmono m v (executeCheck_cache_mono env dr cache depApp m v hm)

theorem any_false_iff_find_none {α : Type} (p : α → Bool) (l : List α) :
    l.any p = false ↔ l.find? p = none := by
  simp [List.any_eq_false, List.find?_eq_none]

theorem any_true_iff_find_some {α : Type} (p : α → Bool) (l : List α) :
    l.any p = true ↔ ∃ d, l.find? p = some d := by
  rw [List.any_eq_true, ← List.find?_isSome, Option.isSome_iff_exists]

theorem bump_sum (o : Outcome) (c : Nat × Nat × Nat) :
    (bump o c).1 + (bump o c).2.1 + (bump o c).2.2 = c.1 + c.2.1 + c.2.2 + 1 := by
  obtain ⟨s, f, k⟩ := c
  cases o <;> simp [bump] <;> omega

theorem runBatch_sum (cfg : Config) (env : Env) (dr : Bool) :
    ∀ (apps : List App) (cache : Cache),
      (runBatch cfg env dr cache apps).1.1 + (runBatch cfg env dr cache apps).1.2.1 +
        (runBatch cfg env dr cache apps).1.2.2 = apps.length := by
  intro apps
  induction apps with
  | nil => intro cache; rfl
  | cons a rest ih =>
    intro cache
    simp only [runBatch]
    rw [bump_sum, ih]
    simp [List.length_cons]

theorem processApp_check (cfg : Config) (env : Env) (dr : Bool) (cache : Cache) (app : App)
    (h : app.type = AppType.check) :
    processApp cfg env dr cache app = (Outcome.skipped, cache, []) := by
  simp [processApp, h]

theorem processApp_gateErr (cfg : Config) (env : Env) (dr : Bool) (cache : Cache) (app : App)
    (h : app.type ≠ AppType.check) (msg : String)
    (herr : (CanExecuteApp cfg env dr cache app).err = some msg) :
    (processApp cfg env dr cache app).1 = Outcome.failed := by
  simp [processApp, h, herr]

theorem processApp_gateFalse (cfg : Config) (env : Env) (dr : Bool) (cache : Cache) (app : App)
    (h : app.type ≠ AppType.check)
    (herr : (CanExecuteApp cfg env dr cache app).err = none)
    (hall : (CanExecuteApp cfg env dr cache app).allowed = false) :
    (processApp cfg env dr cache app).1 = Outcome.skipped := by
  simp [processApp, h, herr, hall]

theorem processApp_launch (cfg : Config) (env : Env) (dr : Bool) (cache : Cache) (app : App)
    (h : app.type ≠ AppType.check)
    (herr : (CanExecuteApp cfg env dr cache app).err = none)
    (hall : (CanExecuteApp cfg env dr cache app).allowed = true) :
    (processApp cfg env dr cache app).1 =
      match (ExecuteApp cfg env dr (CanExecuteApp cfg env dr cache app).cache app).err with
      | some _ => Outcome.failed
      | none => Outcome.success := by
  cases hx : (ExecuteApp cfg env dr (CanExecuteApp cfg env dr cache app).cache app).err with
  | some m => simp [processApp, h, herr, hall, hx]
  | none => simp [processApp, h, herr, hall, hx]

/-- ExecuteCheck on a cache hit: the cached boolean is returned as is. -/
theorem executeCheck_cached (env : Env) (dr : Bool) (cache : Cache) (app : App)
    (h : app.type = AppType.check) (b : Bool) (hc : cacheLookup cache app.name = some b) :
    ExecuteCheck env dr cache app = ⟨b, none, cache, []⟩ := by
  unfold ExecuteCheck
  rw [if_neg (by simp [h]), hc]

/-! Claim theorems. -/

/-- C1: check-result memoization. After any ExecuteCheck call on a check app,
the outcome stands recorded in the cache under the app's name; every
subsequent ExecuteCheck call for that app — under any execution capability
and any dry-run flag, so even if the capability would now answer differently
— returns the same cached boolean with a nil error, leaves the cache
unchanged, and spawns no process. -/
theorem executeCheck_memoization (env : Env) (dr : Bool) (cache : Cache) (app : App)
    (h : app.type = AppType.check) :
    (ExecuteCheck env dr cache app).err = none ∧
    ∀ (env' : Env) (dr' : Bool),
      ExecuteCheck env' dr' (ExecuteCheck env dr cache app).cache app =
        ⟨(ExecuteCheck env dr cache app).success, none,
          (ExecuteCheck env dr cache app).cache, []⟩ := by
  have hchar := executeCheck_char env dr cache app h
  refine ⟨hchar.2.1, fun env' dr' => ?_⟩
  have hlook : cacheLookup (ExecuteCheck env dr cache app).cache app.name =
      some (checkOutcome env dr cache app) := by
    have hm := hchar.2.2 app.name
    rwa [if_pos rfl] at hm
  rw [executeCheck_cached env' dr' (ExecuteCheck env dr cache app).cache app h
    (checkOutcome env dr cache app) hlook, hchar.1]

/-- Witness for C1 at a concrete check: the capability is reconfigured to
fail and the dry-run flag flipped between the two calls, yet the second call
reproduces the first result with no spawn and an unchanged cache. -/
theorem executeCheck_memoization_witness :
    ExecuteCheck envFail true (ExecuteCheck envA false [] chkOK).cache chkOK =
      ⟨(ExecuteCheck envA false [] chkOK).success, none,
        (ExecuteCheck envA false [] chkOK).cache, []⟩ :=
  (executeCheck_memoization envA false [] chkOK rfl).2 envFail true

/-- C2: resolver algorithm. With an empty dependency map, resolveCommand
returns the default command and arguments with the cache untouched and
nothing spawned; with well-referenced dependencies, its result is exactly
the parsed branch of the first dependency (in iteration order) whose check
outcome satisfies it — so later dependencies cannot affect the result — and
the default command when no dependency matches. -/
theorem resolveCommand_spec (cfg : Config) (env : Env) (dr : Bool) (cache : Cache) (app : App) :
    (app.dependencies = [] →
      resolveCommand cfg env dr cache app = ⟨Except.ok (app.command, app.args), cache, []⟩) ∧
    (depsWF cfg app.dependencies = true →
      (resolveCommand cfg env dr cache app).result =
        match app.dependencies.find? (depMatches cfg env dr cache) with
        | some d => parseCommand (specPick cfg env dr cache d)
        | none => Except.ok (app.command, app.args)) := by
  constructor
  · intro h
    simp [resolveCommand, h]
  · intro hwf
    exact resolve_char cfg env dr cache app hwf

/-- Witness for C2: the first dependency of the concrete app fails with a
non-empty onFailure branch, and the resolver returns exactly that branch. -/
theorem resolveCommand_spec_witness :
    (resolveCommand cfgA envA false [] appD).result =
      match appD.dependencies.find? (depMatches cfgA envA false []) with
      | some d => parseCommand (specPick cfgA envA false [] d)
      | none => Except.ok (appD.command, appD.args) :=
  (resolveCommand_spec cfgA envA false [] appD).2 (by decide)

/-- C3: launch gate. With an empty dependency map CanExecuteApp allows
immediately; otherwise, under well-referenced dependencies, it returns a nil
error, its allow bit is true exactly when some dependency has a satisfied
branch, and after the call every dependency's check outcome is recorded in
the cache — it evaluated them all rather than stopping at the first
satisfied one. -/
theorem canExecuteApp_spec (cfg : Config) (env : Env) (dr : Bool) (cache : Cache) (app : App) :
    (app.dependencies = [] →
      CanExecuteApp cfg env dr cache app = ⟨true, none, cache, []⟩) ∧
    (app.dependencies ≠ [] → depsWF cfg app.dependencies = true →
      (CanExecuteApp cfg env dr cache app).err = none ∧
      (CanExecuteApp cfg env dr cache app).allowed
        = app.dependencies.any (depMatches cfg env dr cache) ∧
      ∀ d ∈ app.dependencies,
        (cacheLookup (CanExecuteApp cfg env dr cache app).cache d.1).isSome = true) := by
  constructor
  · intro h
    simp [CanExecuteApp, h]
  · intro hne hwf
    have hu : CanExecuteApp cfg env dr cache app
        = canExecuteLoop cfg env dr cache false app.dependencies := by
      cases hd : app.dependencies with
      | nil => exact absurd hd hne
      | cons x xs => simp [CanExecuteApp, hd]
    obtain ⟨h1, h2, h3, _⟩ := canLoop_char cfg env dr app.dependencies cache false hwf
    rw [hu]
    exact ⟨h1, by rw [h2]; simp, h3⟩

/-- Witness for C3: on the concrete two-dependency app the gate reports a nil
error and its allow bit equals the any-satisfied disjunction. -/
theorem canExecuteApp_spec_witness :
    (CanExecuteApp cfgA envA false [] appD).err = none ∧
    (CanExecuteApp cfgA envA false [] appD).allowed = true := by
  have h := (canExecuteApp_spec cfgA envA false [] appD).2 (by decide) (by decide)
  exact ⟨h.1, h.2.1.trans (by decide)⟩

/-- C4 counterexample: a batch whose single executable depends on an app that
exists but is not a check. No process is spawned at all (so in particular no
detached launch fails to start), yet the failure tally is 1 — refuting the
claim that spawn errors of the final detached launch are the only errors
that increment the failure tally. -/
theorem batch_failure_counterexample :
    (runBatch cfgA envA false [] [appW]).1.2.1 = 1 ∧
    (runBatch cfgA envA false [] [appW]).2.2 = [] := by decide

/-- C4 amended: in the batch loop, a non-check app counts as failed exactly
when the gate errors (a missing or wrong-typed dependency) or when the gate
allows and ExecuteApp errors (a resolution error or a spawn failure of the
final detached launch); so dependency-shape errors increment the failure
tally alongside launch-spawn errors. -/
theorem processApp_failed_iff (cfg : Config) (env : Env) (dr : Bool) (cache : Cache) (app : App)
    (h : app.type ≠ AppType.check) :
    (processApp cfg env dr cache app).1 = Outcome.failed ↔
      ((CanExecuteApp cfg env dr cache app).err ≠ none ∨
       ((CanExecuteApp cfg env dr cache app).err = none ∧
        (CanExecuteApp cfg env dr cache app).allowed = true ∧
        (ExecuteApp cfg env dr (CanExecuteApp cfg env dr cache app).cache app).err ≠ none)) := by
  cases herr : (CanExecuteApp cfg env dr cache app).err with
  | some m =>
    rw [processApp_gateErr cfg env dr cache app h m herr]
    simp [herr]
  | none =>
    cases hall : (CanExecuteApp cfg env dr cache app).allowed with
    | false =>
      rw [processApp_gateFalse cfg env dr cache app h herr hall]
      simp [herr, hall]
    | true =>
      rw [processApp_launch cfg env dr cache app h herr hall]
      cases hx : (ExecuteApp cfg env dr (CanExecuteApp cfg env dr cache app).cache app).err with
      | some m => simp [herr, hall, hx]
      | none => simp [herr, hall, hx]

/-- Witness for the amended C4: the concrete wrong-typed dependency makes the
gate error, and the app is tallied as failed. -/
theorem processApp_failed_iff_witness :
    (processApp cfgA envA false [] appW).1 = Outcome.failed :=
  (processApp_failed_iff cfgA envA false [] appW (by decide)).mpr (Or.inl (by decide))

/-- C5: gate/resolver consistency. For a non-empty, well-referenced
dependency map over the same starting cache, the gate denies exactly when no
dependency matches and the resolver falls back to the default command;
equivalently the gate allows exactly when the resolver selects the matched
dependency's branch. -/
theorem gate_resolver_consistency (cfg : Config) (env : Env) (dr : Bool) (cache : Cache)
    (app : App) (hne : app.dependencies ≠ []) (hwf : depsWF cfg app.dependencies = true) :
    ((CanExecuteApp cfg env dr cache app).allowed = false ↔
      ((resolveCommand cfg env dr cache app).result = Except.ok (app.command, app.args) ∧
        app.dependencies.find? (depMatches cfg env dr cache) = none)) ∧
    ((CanExecuteApp cfg env dr cache app).allowed = true ↔
      ∃ d, app.dependencies.find? (depMatches cfg env dr cache) = some d ∧
        (resolveCommand cfg env dr cache app).result
          = parseCommand (specPick cfg env dr cache d)) := by
  have hres := resolve_char cfg env dr cache app hwf
  have hcan : (CanExecuteApp cfg env dr cache app).allowed
      = app.dependencies.any (depMatches cfg env dr cache) := by
    cases hd : app.dependencies with
    | nil => exact absurd hd hne
    | cons x xs =>
      have hl := (canLoop_char cfg env dr (x :: xs) cache false (hd ▸ hwf)).2.1
      simp [CanExecuteApp, hd, hl]
  constructor
  · constructor
    · intro h
      have hnone : app.dependencies.find? (depMatches cfg env dr cache) = none :=
        (any_false_iff_find_none (depMatches cfg env dr cache) app.dependencies).mp
          (hcan ▸ h)
      refine ⟨?_, hnone⟩
      rw [hres, hnone]
    · intro h
      rw [hcan]
      exact (any_false_iff_find_none (depMatches cfg env dr cache) app.dependencies).mpr h.2
  · constructor
    · intro h
      obtain ⟨d, hd⟩ :=
        (any_true_iff_find_some (depMatches cfg env dr cache) app.dependencies).mp (hcan ▸ h)
      refine ⟨d, hd, ?_⟩
      rw [hres, hd]
    · intro h
      obtain ⟨d, hd, _⟩ := h
      rw [hcan]
      exact (any_true_iff_find_some (depMatches cfg env dr cache) app.dependencies).mpr ⟨d, hd⟩

/-- Witness for C5: on the concrete app whose single dependency fails with
only onSuccess set, the gate denies, and indeed no dependency matches and
the resolver returns the default command. -/
theorem gate_resolver_consistency_witness :
    (resolveCommand cfgA envA false [] appNM).result = Except.ok (appNM.command, appNM.args) ∧
    appNM.dependencies.find? (depMatches cfgA envA false []) = none :=
  (gate_resolver_consistency cfgA envA false [] appNM (by decide) (by decide)).1.mp (by decide)

/-- C6: dry-run determinism. In dry-run mode ExecuteCheck spawns nothing for
a check app, and on a cache miss it records success under the app's name —
the same record a real successful evaluation would leave — and returns
success with a nil error. -/
theorem executeCheck_dryRun (env : Env) (cache : Cache) (app : App)
    (h : app.type = AppType.check) :
    (ExecuteCheck env true cache app).spawned = [] ∧
    (cacheLookup cache app.name = none →
      ExecuteCheck env true cache app = ⟨true, none, cacheInsert cache app.name true, []⟩) := by
  constructor
  · unfold ExecuteCheck
    rw [if_neg (by simp [h])]
    cases hc : cacheLookup cache app.name <;> simp
  · intro hc
    unfold ExecuteCheck
    rw [if_neg (by simp [h]), hc]
    rfl

/-- Witness for C6: in dry-run mode the check whose command the environment
rejects still reports and caches success, with no spawn. -/
theorem executeCheck_dryRun_witness :
    ExecuteCheck envA true [] chkBad = ⟨true, none, cacheInsert [] chkBad.name true, []⟩ :=
  (executeCheck_dryRun envA [] chkBad rfl).2 rfl

/-- C7: empty-command error. When the first matching dependency's selected
branch string splits into no tokens, resolution of the whole app fails with
the empty-command error instead of falling through to later dependencies or
the default command. -/
theorem resolve_emptyCommand (cfg : Config) (env : Env) (dr : Bool) (cache : Cache)
    (app : App) (d : String × DependencyAction)
    (hwf : depsWF cfg app.dependencies = true)
    (hfind : app.dependencies.find? (depMatches cfg env dr cache) = some d)
    (hempty : fields (specPick cfg env dr cache d) = []) :
    (resolveCommand cfg env dr cache app).result = Except.error "empty command string" := by
  have hres := resolve_char cfg env dr cache app hwf
  rw [hres, hfind]
  show parseCommand (specPick cfg env dr cache d) = Except.error "empty command string"
  unfold parseCommand
  rw [hempty]

/-- Witness for C7: a whitespace-only onSuccess branch on a succeeding check
matches and then fails resolution with the empty-command error. -/
theorem resolve_emptyCommand_witness :
    (resolveCommand cfgA envA false [] appEC).result = Except.error "empty command string" :=
  resolve_emptyCommand cfgA envA false [] appEC ("cOK", ⟨"  ", ""⟩)
    (by decide) (by decide) (by decide)

/-- C8: spawn-failure degradation for checks. In non-dry-run mode, on a
cache miss, a check whose process fails to start or exits non-zero is
recorded as success=false in the cache and ExecuteCheck returns
success=false with a nil error — the failure is not propagated as a hard
error. -/
theorem executeCheck_spawnFailure (env : Env) (cache : Cache) (app : App)
    (h : app.type = AppType.check) (hc : cacheLookup cache app.name = none)
    (hf : env.runCheck app.command app.args = false) :
    ExecuteCheck env false cache app =
      ⟨false, none, cacheInsert cache app.name false, [(app.command, app.args)]⟩ := by
  unfold ExecuteCheck
  rw [if_neg (by simp [h]), hc]
  simp [hf]

/-- Witness for C8 at the concrete failing check. -/
theorem executeCheck_spawnFailure_witness :
    ExecuteCheck envA false [] chkBad =
      ⟨false, none, cacheInsert [] chkBad.name false, [(chkBad.command, chkBad.args)]⟩ :=
  executeCheck_spawnFailure envA [] chkBad rfl rfl (by decide)

/-- C9: PrintCheckResult always spawns the check's process — for every
dry-run flag and every starting cache, including one that already holds a
result for the app — and returns the cache exactly as it received it. -/
theorem printCheckResult_frame (env : Env) (dr : Bool) (cache : Cache) (app : App)
    (h : app.type = AppType.check) :
    PrintCheckResult env dr cache app =
      ⟨if env.runCheck app.command app.args then none
        else some ("check '" ++ app.name ++ "' failed"),
       cache, [(app.command, app.args)]⟩ := by
  unfold PrintCheckResult
  rw [if_neg (by simp [h])]
  cases hr : env.runCheck app.command app.args <;> simp [hr]

/-- Witness for C9: with dry-run set and a cached result already present,
PrintCheckResult still spawns the process and leaves the cache unchanged. -/
theorem printCheckResult_frame_witness :
    PrintCheckResult envA true [("cOK", false)] chkOK =
      ⟨none, [("cOK", false)], [(chkOK.command, chkOK.args)]⟩ :=
  (printCheckResult_frame envA true [("cOK", false)] chkOK rfl).trans (by decide)

/-- C10: batch counter partition. The three counters of the batch loop sum
to the number of apps processed, and each app falls in exactly one class:
check-type apps and gate-denied apps are skipped, gate errors and ExecuteApp
errors are failures, and an error-free launch is a success. -/
theorem batch_counter_partition (cfg : Config) (env : Env) (dr : Bool) (cache : Cache)
    (apps : List App) (app : App) :
    ((runBatch cfg env dr cache apps).1.1 + (runBatch cfg env dr cache apps).1.2.1 +
      (runBatch cfg env dr cache apps).1.2.2 = apps.length) ∧
    (app.type = AppType.check → (processApp cfg env dr cache app).1 = Outcome.skipped) ∧
    (app.type ≠ AppType.check → (CanExecuteApp cfg env dr cache app).err ≠ none →
      (processApp cfg env dr cache app).1 = Outcome.failed) ∧
    (app.type ≠ AppType.check → (CanExecuteApp cfg env dr cache app).err = none →
      (CanExecuteApp cfg env dr cache app).allowed = false →
      (processApp cfg env dr cache app).1 = Outcome.skipped) ∧
    (app.type ≠ AppType.check → (CanExecuteApp cfg env dr cache app).err = none →
      (CanExecuteApp cfg env dr cache app).allowed = true →
      (ExecuteApp cfg env dr (CanExecuteApp cfg env dr cache app).cache app).err ≠ none →
      (processApp cfg env dr cache app).1 = Outcome.failed) ∧
    (app.type ≠ AppType.check → (CanExecuteApp cfg env dr cache app).err = none →
      (CanExecuteApp cfg env dr cache app).allowed = true →
      (ExecuteApp cfg env dr (CanExecuteApp cfg env dr cache app).cache app).err = none →
      (processApp cfg env dr cache app).1 = Outcome.success) := by
  refine ⟨runBatch_sum cfg env dr apps cache, ?_, ?_, ?_, ?_, ?_⟩
  · intro h
    rw [processApp_check cfg env dr cache app h]
  · intro h herr
    obtain ⟨m, hm⟩ := Option.ne_none_iff_exists'.mp herr
    exact processApp_gateErr cfg env dr cache app h m hm
  · intro h herr hall
    exact processApp_gateFalse cfg env dr cache app h herr hall
  · intro h herr hall hx
    obtain ⟨m, hm⟩ := Option.ne_none_iff_exists'.mp hx
    rw [processApp_launch cfg env dr cache app h herr hall, hm]
  · intro h herr hall hx
    rw [processApp_launch cfg env dr cache app h herr hall, hx]

/-- Witness for C10: a concrete two-app batch (one launches, one fails on a
wrong-typed dependency) has counters summing to its length, and a check app
is classified as skipped. -/
theorem batch_counter_partition_witness :
    ((runBatch cfgA envA false [] [appB, appW]).1.1 +
      (runBatch cfgA envA false [] [appB, appW]).1.2.1 +
      (runBatch cfgA envA false [] [appB, appW]).1.2.2 = 2) ∧
    (processApp cfgA envA false [] chkOK).1 = Outcome.skipped :=
  ⟨(batch_counter_partition cfgA envA false [] [appB, appW] chkOK).1,
   (batch_counter_partition cfgA envA false [] [appB, appW] chkOK).2.1 rfl⟩
